import Mathlib

/-!
# Verification development for the component identity / status / removal engine

Shallow embedding of:
* `src/bit-id/bit-ids.ts` — the identity collection (`BitIds`)
* `consumer/component-ops/component-status-loader.ts` — the status resolver
* `dependency-resolver/manifest/deduping/index-by-dep-id.ts` — the dependency indexer
* `component/remove/remove-components.ts` — the removal engine

Collections are embedded as `List`, JS `Map` as an insertion-ordered association
list, JS exceptions as `Except`, and collaborators (consumer, scope object store,
remotes) as records of functions passed explicitly.
-/

/-- Modelled from the spec: the `BitId` class itself (`bit-id/bit-id.ts`) is not part
of the excerpted sources; §3 gives `ComponentIdentity` as
`{ scope: optional string, name: string, version: optional VersionTag }`. -/
structure BitId where
  scope : Option String
  name : String
  version : Option String
deriving DecidableEq, Repr

namespace BitId

/-- Modelled from the spec: equality ignoring scope and version compares names. -/
def hasSameName (a b : BitId) : Bool := a.name == b.name

/-- Modelled from the spec: scope components compare as optional strings. -/
def hasSameScope (a b : BitId) : Bool := a.scope == b.scope

/-- Modelled from the spec: version components compare as optional strings. -/
def hasSameVersion (a b : BitId) : Bool := a.version == b.version

/-- Modelled from the spec: full equality = same name, same scope, same version. -/
def isEqual (a b : BitId) : Bool := a.hasSameName b && a.hasSameScope b && a.hasSameVersion b

/-- Modelled from the spec (§3): an identity without `scope` is local
(not yet published). Mirrors `ComponentID.isLocal`, not in the excerpt. -/
def isLocal (id : BitId) : Bool := id.scope.isNone

/-- Modelled from the spec: `changeVersion` replaces the version component. -/
def changeVersion (id : BitId) (v : String) : BitId := { id with version := some v }

/-- Modelled from the spec (§4.1 `serialize`): `scope/name@version` with the
optional parts omitted when absent. Used only as the cache key string. -/
def toStringId (id : BitId) : String :=
  (match id.scope with
   | some s => s ++ "/"
   | none => "") ++ id.name ++
  (match id.version with
   | some v => "@" ++ v
   | none => "")

/-- Modelled from the spec (§4.3): `OutOfSync` fires when the working copy has no
resolvable version; mirrors `ComponentID.hasVersion`, not in the excerpt. -/
def hasVersion (id : BitId) : Bool := id.version.isSome

end BitId

/-- `LATEST_BIT_VERSION` / `LATEST` constant (`constants.ts`, not in the excerpt;
the spec's "latest known version" sentinel). -/
def latestBitVersion : String := "latest"

/-- `VERSION_ZERO` sentinel of `scope/models/model-component.ts` (not in the
excerpt; the spec's "version zero" sentinel for a never-snapped component). -/
def versionZero : String := "0.0.0"

/-! ## `BitIds` — the identity collection (`src/bit-id/bit-ids.ts`)

`BitIds extends Array<BitId>`; embedded as `List BitId`. Every operation below
mirrors one method of the class. -/

namespace BitIds

/-- `search`: find a member equal to `bitId` under full equality. -/
def search (l : List BitId) (bitId : BitId) : Option BitId :=
  l.find? fun id => id.hasSameName bitId && id.hasSameScope bitId && id.hasSameVersion bitId

/-- `has`: `Boolean(this.search(bitId))`. -/
def has (l : List BitId) (bitId : BitId) : Bool := (search l bitId).isSome

/-- `searchWithoutVersion`. -/
def searchWithoutVersion (l : List BitId) (bitId : BitId) : Option BitId :=
  l.find? fun id => id.hasSameName bitId && id.hasSameScope bitId

/-- `hasWithoutVersion`: `Boolean(this.searchWithoutVersion(bitId))`. -/
def hasWithoutVersion (l : List BitId) (bitId : BitId) : Bool :=
  (searchWithoutVersion l bitId).isSome

/-- `static fromArray(ids)`: pushes each id in order, with no deduplication. -/
def fromArray (ids : List BitId) : List BitId := ids

/-- `difference(bitIds)`: members of `this` for which `bitIds.search` finds
nothing (no full-equality match in the other collection). -/
def difference (l other : List BitId) : List BitId :=
  fromArray (l.filter fun id => !(has other id))

/-- `removeIfExist(bitId)`: drop members fully equal to `bitId`. -/
def removeIfExist (l : List BitId) (bitId : BitId) : List BitId :=
  fromArray (l.filter fun id => !(id.isEqual bitId))

/-- `add(bitIds)`: push each new id unless `search` already finds it. The source
mutates `this` in place; embedded as returning the extended collection. -/
def add (l : List BitId) (news : List BitId) : List BitId :=
  news.foldl (fun acc b => if has acc b then acc else acc ++ [b]) l

/-- `static uniqFromArray(bitIds)`: `R.uniqBy(JSON.stringify, bitIds)` — keep the
first occurrence of each structurally identical id. -/
def uniqFromArray (ids : List BitId) : List BitId :=
  ids.foldl (fun acc id => if id ∈ acc then acc else acc ++ [id]) []

/-- The uniqueness property the spec ascribes to the collection: no two members
are equal under full equality. -/
def uniqueFull (l : List BitId) : Prop :=
  l.Pairwise fun a b => a.isEqual b = false

instance (l : List BitId) : Decidable (uniqueFull l) :=
  List.instDecidablePairwise l

end BitIds

/-! ## Status resolver (`consumer/component-ops/component-status-loader.ts`) -/

/-- `ComponentStatus`: each field may be `undefined`, `true`, or `false` in the
source (the doc comment of `getComponentStatusById` is explicit about this);
embedded as `Option Bool`, `none` = `undefined`. `{}` is the record with every
field `undefined`, as built at the top of `getStatus`. -/
structure ComponentStatus where
  modified : Option Bool := none
  newlyCreated : Option Bool := none
  deleted : Option Bool := none
  staged : Option Bool := none
  notExist : Option Bool := none
  missingFromScope : Option Bool := none
deriving DecidableEq, Repr

/-- JS truthiness of an `undefined | true | false` field
(e.g. `if (componentStatus.modified)`). -/
def truthy : Option Bool → Bool
  | some true => true
  | _ => false

/-- The error classes `consumer.loadComponents` can throw, per the catch clause
of `getStatus` (three "missing files" classes, pending import, anything else). -/
inductive LoadErr
  | missingFilesFromComponent
  | componentNotFoundInPath
  | missingBitMapComponent
  | componentsPendingImport
  | otherError (msg : String)
deriving DecidableEq, Repr

/-- A working-copy component as loaded from the filesystem; `getStatus` consumes
only its `id` (for `id.version` / `id.hasVersion()`). -/
structure FsComponent where
  id : BitId
deriving DecidableEq, Repr

/-- Result of `consumer.loadComponents`: `{ components, removedComponents }`.
Only `components[0]` and `removedComponents.length` are consumed. -/
structure LoadResult where
  components : List FsComponent
  removedComponents : List BitId
deriving DecidableEq

/-- A `ModelComponent` as consumed by `getStatus`:
`getHeadRegardlessOfLaneAsTagOrHash(true)` collapsed to a stored string, and
`getRef(version)` collapsed to the hash string of the returned `Ref`. -/
structure ModelComponent where
  headRegardlessOfLaneAsTagOrHash : String
  getRef : String → Option String

/-- The errors `getStatus` itself can throw: a rethrown loader error, the
`ComponentOutOfSync` throw, the two `BitError` throws, and the JS `TypeError`
that dereferencing `componentFromFileSystem.id` would raise when
`components[0]` is `undefined`. -/
inductive StatusErr
  | loadError (msg : String)
  | componentOutOfSync (idStr : String)
  | versionNotFoundInModel (version idStr : String)
  | failedLoadingVersion (version idStr : String)
  | undefinedComponentAccess
deriving Repr

/-- The collaborators `getStatus` consults: `consumer.scope`, the loader, the
lane object, the object store and the modified-check. `isLocallyChanged`
absorbs `getCurrentLaneObject`, `setDivergeData` and `scope.objects`
(divergence is external to this file); `isComponentModified` absorbs the
content-hash comparison. -/
structure StatusCollab where
  getModelComponentIfExist : BitId → Option ModelComponent
  loadComponents : BitId → Except LoadErr LoadResult
  isLocallyChanged : ModelComponent → Bool
  getObject : String → Option String
  isComponentModified : String → FsComponent → Bool

/-- `getStatus(id)` — the private status computation, line by line:
model lookup, working-copy load at `latest`, the catch clause (including the
no-op statement `status.missingFromScope;` on the pending-import path, which
assigns nothing), the removed / newly-created / version-zero early returns,
then `staged`, the `OutOfSync` check, ref resolution and `modified`. -/
def getStatus (c : StatusCollab) (id : BitId) : Except StatusErr ComponentStatus :=
  let componentFromModel := c.getModelComponentIfExist id
  match c.loadComponents (id.changeVersion latestBitVersion) with
  | .error .missingFilesFromComponent =>
      if componentFromModel.isSome then .ok { deleted := some true }
      else .ok { notExist := some true }
  | .error .componentNotFoundInPath =>
      if componentFromModel.isSome then .ok { deleted := some true }
      else .ok { notExist := some true }
  | .error .missingBitMapComponent =>
      if componentFromModel.isSome then .ok { deleted := some true }
      else .ok { notExist := some true }
  | .error .componentsPendingImport =>
      -- the source line is `status.missingFromScope;` — an expression statement,
      -- not an assignment — so the returned record has every facet undefined
      .ok {}
  | .error (.otherError msg) => .error (.loadError msg)
  | .ok r =>
      if r.removedComponents.length ≠ 0 then .ok { deleted := some true }
      else
        let componentFromFileSystem := r.components.head?
        match componentFromModel with
        | none => .ok { newlyCreated := some true }
        | some model =>
          if model.headRegardlessOfLaneAsTagOrHash = versionZero then
            .ok { newlyCreated := some true }
          else
            let staged := c.isLocallyChanged model
            match componentFromFileSystem with
            | none => .error .undefinedComponentAccess
            | some comp =>
              let idStr := id.toStringId
              if ¬comp.id.hasVersion then .error (.componentOutOfSync idStr)
              else
                match comp.id.version with
                | none => .error (.componentOutOfSync idStr)
                | some versionFromFs =>
                  match model.getRef versionFromFs with
                  | none => .error (.versionNotFoundInModel versionFromFs idStr)
                  | some refHash =>
                    match c.getObject refHash with
                    | none => .error (.failedLoadingVersion versionFromFs idStr)
                    | some versionFromModel =>
                      .ok { staged := some staged,
                            modified := some (c.isComponentModified versionFromModel comp) }

/-- The mutable state of a `ComponentStatusLoader` instance:
`_componentsStatusCache` keyed by `id.toString()`, plus an invocation counter
for `getStatus` — the "counting collaborator stub" the spec's testable
properties call for (the counter is instrumentation, not source state). -/
structure LoaderState where
  cache : List (String × ComponentStatus) := []
  loaderCalls : Nat := 0
deriving DecidableEq

/-- Lookup in the cache record (`this._componentsStatusCache[key]`). -/
def lookupCache (cache : List (String × ComponentStatus)) (k : String) : Option ComponentStatus :=
  (cache.find? fun p => p.1 == k).map (·.2)

/-- `getComponentStatusById(id)`: return the cached record when present
(a cached status object is always truthy, so `if (!cache[key])` is exactly a
presence test), otherwise run `getStatus` and store the result; when
`getStatus` throws, the assignment never executes and the cache is untouched. -/
def getComponentStatusById (c : StatusCollab) (st : LoaderState) (id : BitId) :
    Except StatusErr ComponentStatus × LoaderState :=
  match lookupCache st.cache id.toStringId with
  | some s => (.ok s, st)
  | none =>
    let st1 : LoaderState := { st with loaderCalls := st.loaderCalls + 1 }
    match getStatus c id with
    | .ok s => (.ok s, { st1 with cache := st1.cache ++ [(id.toStringId, s)] })
    | .error e => (.error e, st1)

/-- `clearOneComponentCache(id)`: `delete this._componentsStatusCache[id.toString()]`. -/
def clearOneComponentCache (st : LoaderState) (id : BitId) : LoaderState :=
  { st with cache := st.cache.filter fun p => p.1 != id.toStringId }

/-! ## Dependency indexer
(`dependency-resolver/manifest/deduping/index-by-dep-id.ts`) -/

/-- `DependencyLifecycleType` (`'runtime' | 'dev' | 'peer'`). -/
inductive DependencyLifecycleType
  | runtime
  | dev
  | peer
deriving DecidableEq, Repr

/-- `ManifestDependenciesKeysNames`: the keys of a component's dependency
buckets, including the `peerDependenciesMeta` bucket that `indexByDepId`
drops when no explicit field list is given. -/
inductive ManifestDepsKey
  | dependencies
  | devDependencies
  | peerDependencies
  | peerDependenciesMeta
deriving DecidableEq, Repr

/-- Modelled from the spec (§4.4): `LIFECYCLE_TYPE_BY_KEY_NAME` of
`dependencies/constants.ts` (not in the excerpt) maps the three dependency
buckets to `runtime`/`dev`/`peer`; `peerDependenciesMeta` has no entry,
so the TS lookup yields `undefined` (here `none`). -/
def lifecycleTypeByKeyName : ManifestDepsKey → Option DependencyLifecycleType
  | .dependencies => some .runtime
  | .devDependencies => some .dev
  | .peerDependencies => some .peer
  | .peerDependenciesMeta => none

/-- `PackageNameIndexItemMetadata`. -/
structure PackageNameIndexItemMetadata where
  preservedVersion : Option String := none
  preservedLifecycleType : Option DependencyLifecycleType := none
deriving DecidableEq, Repr

/-- `PackageNameIndexComponentItem`. The `lifecycleType` is an `Option`
because the TS cast `LIFECYCLE_TYPE_BY_KEY_NAME[key] as DependencyLifecycleType`
can inject `undefined` for the `peerDependenciesMeta` key. -/
structure PackageNameIndexComponentItem where
  range : String
  origin : String
  lifecycleType : Option DependencyLifecycleType
deriving DecidableEq, Repr

/-- `PackageNameIndexItem`. -/
structure PackageNameIndexItem where
  metadata : PackageNameIndexItemMetadata
  componentItems : List PackageNameIndexComponentItem
deriving DecidableEq, Repr

/-- `PackageNameIndex = Map<PackageName, PackageNameIndexItem>`, embedded as an
insertion-ordered association list (JS `Map` iterates in insertion order). -/
abbrev PackageNameIndex : Type := List (String × PackageNameIndexItem)

/-- `index.get(depId)`. -/
def idxGet (index : PackageNameIndex) (depId : String) : Option PackageNameIndexItem :=
  (index.find? fun p => p.1 == depId).map (·.2)

/-- `addComponentDepToDepIdIndex(index, origin, lifecycleType)(range, depId)`:
create the entry on first sight, otherwise push the component item onto the
existing entry. `Map.set` on a fresh key appends in insertion order. -/
def addComponentDepToDepIdIndex (index : PackageNameIndex) (origin : String)
    (lifecycleType : Option DependencyLifecycleType) (range depId : String) :
    PackageNameIndex :=
  let componentItem : PackageNameIndexComponentItem :=
    { origin := origin, range := range, lifecycleType := lifecycleType }
  if (idxGet index depId).isSome then
    index.map fun p =>
      if p.1 == depId then
        (p.1, { p.2 with componentItems := p.2.componentItems ++ [componentItem] })
      else p
  else
    index ++ [(depId, { componentItems := [componentItem], metadata := {} })]

/-- `addSpecificLifeCycleDepsToIndex(index, origin)(deps, depKeyName)`: resolve
the lifecycle for the bucket key and add every `(depId, range)` pair. A bucket
is embedded as its list of `(depId, range)` pairs in object-key order. -/
def addSpecificLifeCycleDepsToIndex (index : PackageNameIndex) (origin : String)
    (deps : List (String × String)) (depKeyName : ManifestDepsKey) : PackageNameIndex :=
  let lifecycleType := lifecycleTypeByKeyName depKeyName
  deps.foldl (fun idx p => addComponentDepToDepIdIndex idx origin lifecycleType p.2 p.1) index

/-- `WorkspacePolicyEntry` (`value.preserve` is an optional boolean;
`!!entry.value.preserve` is `preserve == some true`). -/
structure WorkspacePolicyEntry where
  dependencyId : String
  version : String
  preserve : Option Bool
  lifecycleType : DependencyLifecycleType
deriving DecidableEq, Repr

/-- `setMetadataToExistingIndexItem`: overwrite the metadata of the entry for
`depId` when it exists; "only change existing items" — a miss changes nothing. -/
def setMetadataToExistingIndexItem (index : PackageNameIndex) (depId : String)
    (metadata : PackageNameIndexItemMetadata) : PackageNameIndex :=
  index.map fun p =>
    if p.1 == depId then (p.1, { p.2 with metadata := metadata }) else p

/-- The metadata `addPreservedFromRoot` stamps for one policy entry. -/
def stampOf (e : WorkspacePolicyEntry) : PackageNameIndexItemMetadata :=
  { preservedVersion := some e.version, preservedLifecycleType := some e.lifecycleType }

/-- `addPreservedFromRoot`: filter the policy entries marked `preserve` and
stamp each one's metadata onto the existing index entry (if any). -/
def addPreservedFromRoot (index : PackageNameIndex) (rootPolicy : List WorkspacePolicyEntry) :
    PackageNameIndex :=
  let preserved := rootPolicy.filter fun e => e.preserve == some true
  preserved.foldl (fun idx e => setMetadataToExistingIndexItem idx e.dependencyId (stampOf e)) index

/-- A component's dependency buckets (`depsObject`), in object-key order. -/
abbrev DepsObject : Type := List (ManifestDepsKey × List (String × String))

/-- The bucket restriction applied per component before indexing:
`pick(hoistedDepFields, depsObject)` when a field list was given, otherwise
`omit(['peerDependenciesMeta'], depsObject)`. -/
def restrictDepsObject (hoistedDepFields : Option (List ManifestDepsKey)) (deps : DepsObject) :
    DepsObject :=
  match hoistedDepFields with
  | some fields => deps.filter fun b => b.1 ∈ fields
  | none => deps.filter fun b => b.1 ≠ .peerDependenciesMeta

/-- The component-processing phase of `indexByDepId` (everything before
`addPreservedFromRoot`): fold every component's restricted buckets into the
index. -/
def buildIndexFromComponents (componentDependenciesMap : List (String × DepsObject))
    (hoistedDepFields : Option (List ManifestDepsKey)) : PackageNameIndex :=
  componentDependenciesMap.foldl
    (fun idx comp =>
      (restrictDepsObject hoistedDepFields comp.2).foldl
        (fun idx2 bucket => addSpecificLifeCycleDepsToIndex idx2 comp.1 bucket.2 bucket.1) idx)
    ([] : List (String × PackageNameIndexItem))

/-- `indexByDepId(rootPolicy, componentDependenciesMap, hoistedDepFields?)`. -/
def indexByDepId (rootPolicy : List WorkspacePolicyEntry)
    (componentDependenciesMap : List (String × DepsObject))
    (hoistedDepFields : Option (List ManifestDepsKey)) : PackageNameIndex :=
  addPreservedFromRoot (buildIndexFromComponents componentDependenciesMap hoistedDepFields)
    rootPolicy

/-! ## Removal engine (`component/remove/remove-components.ts`) -/

/-- An error thrown by `consumer.getComponentStatusById` seen from `removeLocal`:
the only thing the catch clause inspects is
`Component.isComponentInvalidByErrorType(err)`. -/
structure ComponentError where
  invalidByErrorType : Bool
  msg : String
deriving DecidableEq, Repr

/-- Result of `consumer.scope.removeMany` (an external collaborator of
`removeLocal`): `{ removedComponentIds, missingComponents, dependentBits,
removedFromLane }`. -/
structure RemoveManyResult where
  removedComponentIds : List BitId
  missingComponents : List BitId
  dependentBits : List (String × List BitId)
  removedFromLane : List BitId
deriving DecidableEq

/-- `RemovedLocalObjects` as constructed at the end of `removeLocal`
(constructor argument order: removed ids, missing, modified, dependents,
removed-from-lane). The zero-argument construction `new RemovedLocalObjects()`
is the record of empty lists. -/
structure RemovedLocalObjects where
  removedComponentIds : List BitId := []
  missingComponents : List BitId := []
  modifiedComponents : List BitId := []
  dependentBits : List (String × List BitId) := []
  removedFromLane : List BitId := []
deriving DecidableEq

/-- An aggregated remote-removal result (`RemovedObjects`); `removeComponents`
only passes it through, so only an abstract payload is kept. -/
structure RemovedObjects where
  removedIds : List String := []
deriving DecidableEq

/-- Collaborators of the removal engine: the consumer's status loader, the
new-components listing (`ComponentsList.listNewComponents`), the scope's
`removeMany`, and the whole remote path (`removeRemote` groups by scope and
calls the remotes / central hub — network collaborators per §6). -/
structure RemoveCollab where
  getComponentStatusById : BitId → Except ComponentError ComponentStatus
  listNewComponents : List BitId
  removeMany : List BitId → Bool → RemoveManyResult
  removeRemote : List BitId → Bool → List RemovedObjects

/-- The sequential status partition of `removeLocal` (the `pMapSeries` body):
modified ids accumulate into `modifiedComponents`, non-modified ones into
`nonModifiedComponents`; a status error classified invalid by
`Component.isComponentInvalidByErrorType` sends the id to the non-modified
list, any other status error propagates. -/
def partitionByModified (c : RemoveCollab) :
    List BitId → List BitId → List BitId → Except ComponentError (List BitId × List BitId)
  | [], modifiedAcc, nonModifiedAcc => .ok (modifiedAcc, nonModifiedAcc)
  | id :: rest, modifiedAcc, nonModifiedAcc =>
    match c.getComponentStatusById id with
    | .ok componentStatus =>
      if truthy componentStatus.modified then
        partitionByModified c rest (modifiedAcc ++ [id]) nonModifiedAcc
      else
        partitionByModified c rest modifiedAcc (nonModifiedAcc ++ [id])
    | .error err =>
      if err.invalidByErrorType then
        partitionByModified c rest modifiedAcc (nonModifiedAcc ++ [id])
      else
        .error err

/-- `removeLocal(consumer, bitIds, force, track, deleteFiles)`. File deletion
(`deleteComponentsFiles`), package-json cleanup and `cleanFromBitMap` are
external filesystem side effects that do not contribute to the returned
`RemovedLocalObjects`; `consumer.loadComponents(idsToRemove)` feeds only those
side effects, so neither appears in the embedding of the return value. -/
def removeLocal (c : RemoveCollab) (bitIds : List BitId) (force track deleteFiles : Bool) :
    Except ComponentError RemovedLocalObjects :=
  if bitIds.isEmpty then .ok {}
  else
    (if force then .ok ([], []) else partitionByModified c bitIds [] []).bind
      fun parts =>
        let modifiedComponents := parts.1
        let nonModifiedComponents := parts.2
        let idsToRemove := if force then bitIds else nonModifiedComponents
        let newComponents := c.listNewComponents
        let idsToRemoveFromScope := BitIds.fromArray
          (idsToRemove.filter fun id => !(BitIds.hasWithoutVersion newComponents id))
        let idsToCleanFromWorkspace := BitIds.fromArray
          (idsToRemove.filter fun id => BitIds.hasWithoutVersion newComponents id)
        let r := c.removeMany idsToRemoveFromScope force
        -- `idsToCleanFromWorkspace.push(...removedComponentIds)` precedes the
        -- final construction, so the removed ids appear twice in the concat
        let idsToCleanFromWorkspace2 := idsToCleanFromWorkspace ++ r.removedComponentIds
        .ok { removedComponentIds :=
                BitIds.uniqFromArray (idsToCleanFromWorkspace2 ++ r.removedComponentIds),
              missingComponents := r.missingComponents,
              modifiedComponents := modifiedComponents,
              dependentBits := r.dependentBits,
              removedFromLane := r.removedFromLane }

/-- The error surface of `removeComponents`: the `GeneralError` thrown for
unscoped ids on the remote path, or a propagated status error from the local
path. -/
inductive RemoveError
  | generalError (msg : String)
  | componentError (e : ComponentError)
deriving DecidableEq, Repr

/-- `RemoveComponentsResult = { localResult, remoteResult }`. -/
structure RemoveComponentsResult where
  localResult : RemovedLocalObjects
  remoteResult : List RemovedObjects
deriving DecidableEq

/-- `removeComponents({consumer, ids, force, remote, track, deleteFiles})`:
normalize every id to `latest`, partition by `isLocal()` (scope presence),
throw `GeneralError` when `remote` is set but some id lacks a scope, then run
the remote and/or local paths. -/
def removeComponents (c : RemoveCollab) (ids : List BitId)
    (force remote track deleteFiles : Bool) : Except RemoveError RemoveComponentsResult :=
  let bitIdsLatest := BitIds.fromArray (ids.map fun id => id.changeVersion latestBitVersion)
  let parts := bitIdsLatest.partition fun id => id.isLocal
  let localIds := parts.1
  let remoteIds := parts.2
  if remote && !localIds.isEmpty then
    .error (.generalError
      ("unable to remove the remote components: " ++
       String.intercalate "," (localIds.map BitId.toStringId) ++
       " as they don't contain a scope-name"))
  else
    let remoteResult := if remote && !remoteIds.isEmpty then c.removeRemote remoteIds force else []
    match (if !remote then removeLocal c bitIdsLatest force track deleteFiles
           else .ok ({} : RemovedLocalObjects)) with
    | .error e => .error (.componentError e)
    | .ok localResult => .ok { localResult := localResult, remoteResult := remoteResult }

/-! ## Lemmas about the identity collection -/

namespace BitIds

theorem isEqual_iff_eq (a b : BitId) : a.isEqual b = true ↔ a = b := by
  cases a; cases b
  simp only [BitId.isEqual, BitId.hasSameName, BitId.hasSameScope, BitId.hasSameVersion,
    Bool.and_eq_true, beq_iff_eq, BitId.mk.injEq]
  tauto

theorem isEqual_false_iff_ne (a b : BitId) : a.isEqual b = false ↔ a ≠ b := by
  rw [← not_iff_not]
  simp [isEqual_iff_eq]

theorem has_iff_mem (l : List BitId) (b : BitId) : has l b = true ↔ b ∈ l := by
  simp only [has, search, List.find?_isSome]
  constructor
  · rintro ⟨x, hx, hp⟩
    rw [show (x.hasSameName b && x.hasSameScope b && x.hasSameVersion b) = x.isEqual b from rfl,
      isEqual_iff_eq] at hp
    exact hp ▸ hx
  · intro hb
    exact ⟨b, hb, by rw [show (b.hasSameName b && b.hasSameScope b && b.hasSameVersion b)
      = b.isEqual b from rfl, isEqual_iff_eq]⟩

end BitIds

/-- Concrete identities used as witness inputs. -/
def idA : BitId := { scope := some "scope1", name := "comp-a", version := some "0.0.1" }

/-- A second concrete identity, full-equality distinct from `idA`. -/
def idB : BitId := { scope := some "scope1", name := "comp-b", version := some "0.0.1" }

/-- C7: for all identity sets S and T, every member of `S.difference(T)` is a
member of S and matches no member of T under full equality (hence the
intersection with T is empty), and `S.difference(S)` is the empty collection. -/
theorem difference_disjoint_and_self_empty (S T : List BitId) :
    (∀ x ∈ BitIds.difference S T, x ∈ S ∧ (∀ y ∈ T, x.isEqual y = false) ∧ x ∉ T) ∧
    BitIds.difference S S = [] := by
  constructor
  · intro x hx
    rw [BitIds.difference, BitIds.fromArray, List.mem_filter] at hx
    obtain ⟨hxS, hxT⟩ := hx
    rw [Bool.not_eq_true'] at hxT
    have hnot : x ∉ T := fun hmem => by
      rw [← Bool.not_eq_true, BitIds.has_iff_mem] at hxT
      exact hxT hmem
    refine ⟨hxS, fun y hy => ?_, hnot⟩
    rw [BitIds.isEqual_false_iff_ne]
    rintro rfl
    exact hnot hy
  · rw [BitIds.difference, BitIds.fromArray, List.filter_eq_nil_iff]
    intro a ha
    simp only [Bool.not_eq_true', Bool.not_eq_false]
    exact (BitIds.has_iff_mem S a).mpr ha

/-- C7 witness: the theorem applied at `S = [idA, idB]`, `T = [idB]`, where the
difference is `[idA]`. -/
theorem difference_disjoint_witness :
    idA ∈ ([idA, idB] : List BitId) ∧ idA.isEqual idB = false ∧ idA ∉ ([idB] : List BitId) ∧
    BitIds.difference [idA, idB] [idA, idB] = [] := by
  have h := difference_disjoint_and_self_empty [idA, idB] [idB]
  have hmem : idA ∈ BitIds.difference [idA, idB] [idB] := by decide
  exact ⟨(h.1 idA hmem).1, (h.1 idA hmem).2.1 idB (by decide), (h.1 idA hmem).2.2,
    (difference_disjoint_and_self_empty [idA, idB] [idA, idB]).2⟩

/-- C8 counterexample: `fromArray` performs no deduplication, so the collection
it produces can hold two members equal under full equality. -/
theorem fromArray_not_unique_counterexample :
    ¬ BitIds.uniqueFull (BitIds.fromArray [idA, idA]) := by decide

/-- C8 amended: `add` is the operation that enforces uniqueness under full
equality (it refuses to push an id `search` already finds), and `difference` /
`removeIfExist` preserve it; `fromArray` (and `deserialize`, which builds on the
same unchecked constructor) do not deduplicate their input. -/
theorem uniqueFull_preserved (l news other : List BitId) (b : BitId)
    (h : BitIds.uniqueFull l) :
    BitIds.uniqueFull (BitIds.add l news) ∧ BitIds.uniqueFull (BitIds.difference l other) ∧
    BitIds.uniqueFull (BitIds.removeIfExist l b) := by
  have huniq_iff : ∀ m : List BitId, BitIds.uniqueFull m ↔ m.Nodup := by
    intro m
    unfold BitIds.uniqueFull List.Nodup
    constructor
    · exact fun hp => hp.imp fun hab => (BitIds.isEqual_false_iff_ne _ _).mp hab
    · exact fun hp => hp.imp fun hab => (BitIds.isEqual_false_iff_ne _ _).mpr hab
  refine ⟨?_, ?_, ?_⟩
  · rw [huniq_iff] at h ⊢
    unfold BitIds.add
    induction news generalizing l with
    | nil => exact h
    | cons hd tl ih =>
      simp only [List.foldl_cons]
      by_cases hhas : BitIds.has l hd = true
      · rw [if_pos hhas]
        exact ih l h
      · rw [if_neg hhas]
        refine ih (l ++ [hd]) ?_
        rw [List.nodup_append]
        refine ⟨h, List.nodup_singleton hd, ?_⟩
        intro a ha
        simp only [List.mem_singleton]
        rintro rfl
        exact hhas ((BitIds.has_iff_mem l a).mpr ha)
  · rw [huniq_iff] at h ⊢
    exact List.Nodup.filter _ h
  · rw [huniq_iff] at h ⊢
    exact List.Nodup.filter _ h

/-- C8 amended witness: the preservation theorem applied at a concrete
duplicate-free collection. -/
theorem uniqueFull_preserved_witness :
    BitIds.uniqueFull (BitIds.add [idA] [idB, idB]) ∧
    BitIds.uniqueFull (BitIds.difference [idA] [idB]) ∧
    BitIds.uniqueFull (BitIds.removeIfExist [idA] idB) :=
  uniqueFull_preserved [idA] [idB, idB] [idB] idB (by decide)

/-! ## Status resolver claims -/

/-- Collaborator stub whose working-copy load always fails with
`ComponentsPendingImport` ("objects not fetched"). -/
def pendingImportCollab : StatusCollab :=
  { getModelComponentIfExist := fun _ => none
    loadComponents := fun _ => .error .componentsPendingImport
    isLocallyChanged := fun _ => false
    getObject := fun _ => none
    isComponentModified := fun _ _ => false }

/-- C1 (code bug): on a pending-import load failure, `getStatus` returns the
empty status record — the expression statement `status.missingFromScope;`
assigns nothing, so `missingFromScope` stays `undefined` instead of `true`. -/
theorem getStatus_pendingImport_leaves_missingFromScope_unset :
    getStatus pendingImportCollab idA = .ok {} ∧
    ({} : ComponentStatus).missingFromScope = none :=
  ⟨rfl, rfl⟩

/-- C5: every status record `getStatus` successfully produces has at most one
of the facets `notExist`, `deleted`, `newlyCreated` set to `true`. -/
theorem getStatus_terminal_facets_exclusive (c : StatusCollab) (id : BitId)
    (s : ComponentStatus) (h : getStatus c id = .ok s) :
    [s.notExist, s.deleted, s.newlyCreated].countP truthy ≤ 1 := by
  unfold getStatus at h
  dsimp only at h
  split at h
  · split at h <;> (cases h; decide)
  · split at h <;> (cases h; decide)
  · split at h <;> (cases h; decide)
  · cases h; decide
  · cases h
  · split at h
    · cases h; decide
    · split at h
      · cases h; decide
      · split at h
        · cases h; decide
        · split at h
          · cases h
          · split at h
            · cases h
            · split at h
              · cases h
              · split at h
                · cases h
                · split at h
                  · cases h
                  · cases h
                    simp [List.countP_cons, truthy]

/-- C5 witness: the exclusivity theorem applied to the concrete pending-import
stub, whose status record is empty. -/
theorem getStatus_terminal_facets_exclusive_witness :
    [({} : ComponentStatus).notExist, ({} : ComponentStatus).deleted,
      ({} : ComponentStatus).newlyCreated].countP truthy ≤ 1 :=
  getStatus_terminal_facets_exclusive pendingImportCollab idA {} rfl

/-! ## Cache lemmas and caching claims -/

theorem lookupCache_append_self (l : List (String × ComponentStatus)) (k : String)
    (s : ComponentStatus) (h : lookupCache l k = none) :
    lookupCache (l ++ [(k, s)]) k = some s := by
  unfold lookupCache at h ⊢
  rw [List.find?_append]
  rcases hf : l.find? (fun p => p.1 == k) with - | p
  · simp [hf]
  · rw [hf] at h
    simp at h

theorem lookupCache_filter_self (l : List (String × ComponentStatus)) (k : String) :
    lookupCache (l.filter fun p => p.1 != k) k = none := by
  unfold lookupCache
  rw [Option.map_eq_none', List.find?_eq_none]
  intro p hp
  rw [List.mem_filter] at hp
  simpa using hp.2

theorem lookupCache_filter_other (l : List (String × ComponentStatus)) (k k2 : String)
    (h : k2 ≠ k) : lookupCache (l.filter fun p => p.1 != k) k2 = lookupCache l k2 := by
  unfold lookupCache
  induction l with
  | nil => rfl
  | cons p t ih =>
    by_cases hpk : p.1 = k
    · have : (p.1 != k) = false := by simp [hpk]
      rw [List.filter_cons, this]
      simp only [Bool.false_eq_true, if_false]
      rw [ih]
      have : (p.1 == k2) = false := by simp [hpk]; exact fun e => h e.symm
      rw [List.find?_cons, this]
    · have : (p.1 != k) = true := by simp [hpk]
      rw [List.filter_cons, this, if_pos rfl]
      by_cases hpk2 : p.1 = k2
      · rw [List.find?_cons, List.find?_cons]
        simp [hpk2]
      · rw [List.find?_cons, List.find?_cons]
        have : (p.1 == k2) = false := by simp [hpk2]
        rw [this, ih]

/-- C4: a second `getComponentStatusById` call with no intervening invalidation
returns the identical cached record without invoking `getStatus` again (the
state, counter included, is unchanged); a cache miss runs the loader exactly
once; and `clearOneComponentCache` removes exactly that identity's entry. -/
theorem getComponentStatusById_idempotent_cached (c : StatusCollab) (st : LoaderState)
    (id : BitId) (s : ComponentStatus) (st1 : LoaderState)
    (h : getComponentStatusById c st id = (.ok s, st1)) :
    getComponentStatusById c st1 id = (.ok s, st1) ∧
    (lookupCache st.cache id.toStringId = none → st1.loaderCalls = st.loaderCalls + 1) ∧
    lookupCache (clearOneComponentCache st1 id).cache id.toStringId = none ∧
    (∀ k, k ≠ id.toStringId →
      lookupCache (clearOneComponentCache st1 id).cache k = lookupCache st1.cache k) := by
  refine ⟨?_, ?_, lookupCache_filter_self st1.cache id.toStringId,
    fun k hk => lookupCache_filter_other st1.cache id.toStringId k hk⟩
  · unfold getComponentStatusById at h ⊢
    rcases hl : lookupCache st.cache id.toStringId with - | s0
    · rw [hl] at h
      dsimp only at h
      rcases hs : getStatus c id with e | s2 <;> rw [hs] at h
      · exact absurd (congrArg Prod.fst h) (by simp)
      · rw [Prod.mk.injEq] at h
        obtain ⟨hfst, hsnd⟩ := h
        have hs2 : s2 = s := Except.ok.inj hfst
        subst hsnd
        subst hs2
        dsimp only
        rw [lookupCache_append_self st.cache id.toStringId s2 hl]
    · rw [hl] at h
      dsimp only at h
      rw [Prod.mk.injEq] at h
      obtain ⟨hfst, hsnd⟩ := h
      have hs0 : s0 = s := Except.ok.inj hfst
      subst hsnd
      subst hs0
      rw [hl]
  · intro hmiss
    unfold getComponentStatusById at h
    rw [hmiss] at h
    dsimp only at h
    rcases hs : getStatus c id with e | s2 <;> rw [hs] at h
    · exact absurd (congrArg Prod.fst h) (by simp)
    · rw [Prod.mk.injEq] at h
      obtain ⟨hfst, hsnd⟩ := h
      subst hsnd
      rfl

/-- The loader state after a first, cache-missing call on `pendingImportCollab`. -/
def loaderStateAfterFirstCall : LoaderState :=
  { cache := [(idA.toStringId, {})], loaderCalls := 1 }

/-- C4 witness: the caching theorem applied to a concrete first call starting
from the empty state. -/
theorem getComponentStatusById_idempotent_cached_witness :
    getComponentStatusById pendingImportCollab loaderStateAfterFirstCall idA
      = (.ok {}, loaderStateAfterFirstCall) ∧
    loaderStateAfterFirstCall.loaderCalls = ({} : LoaderState).loaderCalls + 1 ∧
    lookupCache (clearOneComponentCache loaderStateAfterFirstCall idA).cache idA.toStringId
      = none ∧
    lookupCache (clearOneComponentCache loaderStateAfterFirstCall idA).cache "other-key"
      = lookupCache loaderStateAfterFirstCall.cache "other-key" := by
  have h := getComponentStatusById_idempotent_cached pendingImportCollab {} idA {}
    loaderStateAfterFirstCall rfl
  exact ⟨h.1, h.2.1 rfl, h.2.2.1, h.2.2.2 "other-key" (by decide)⟩

/-- Collaborator stub whose working-copy load always throws an error outside
the recognized "expected absence" classes, so `getStatus` rethrows it. -/
def throwingCollab : StatusCollab :=
  { getModelComponentIfExist := fun _ => none
    loadComponents := fun _ => .error (.otherError "object store corrupted")
    isLocallyChanged := fun _ => false
    getObject := fun _ => none
    isComponentModified := fun _ _ => false }

/-- C9: when the status computation throws, `getComponentStatusById` creates no
cache entry — the error propagates, the cache is byte-for-byte the input cache,
and a second call for the same identity re-runs the full computation (the
loader counter advances again) instead of returning a cached result. -/
theorem getComponentStatusById_error_no_cache (c : StatusCollab) (st : LoaderState)
    (id : BitId) (e : StatusErr) (hmiss : lookupCache st.cache id.toStringId = none)
    (herr : getStatus c id = .error e) :
    getComponentStatusById c st id
      = (.error e, { cache := st.cache, loaderCalls := st.loaderCalls + 1 }) ∧
    (getComponentStatusById c st id).2.cache = st.cache ∧
    getComponentStatusById c (getComponentStatusById c st id).2 id
      = (.error e, { cache := st.cache, loaderCalls := st.loaderCalls + 1 + 1 }) := by
  have hcall : getComponentStatusById c st id
      = (.error e, { cache := st.cache, loaderCalls := st.loaderCalls + 1 }) := by
    unfold getComponentStatusById
    rw [hmiss]
    dsimp only
    rw [herr]
  refine ⟨hcall, by rw [hcall], ?_⟩
  rw [hcall]
  unfold getComponentStatusById
  dsimp only
  rw [hmiss]
  dsimp only
  rw [herr]

/-- C9 witness: the no-caching-on-error theorem applied to the concrete
rethrowing stub, starting from the empty state. -/
theorem getComponentStatusById_error_no_cache_witness :
    getComponentStatusById throwingCollab {} idA
      = (.error (.loadError "object store corrupted"),
         { cache := [], loaderCalls := 1 }) ∧
    (getComponentStatusById throwingCollab {} idA).2.cache = ([] : List (String × ComponentStatus)) ∧
    getComponentStatusById throwingCollab (getComponentStatusById throwingCollab {} idA).2 idA
      = (.error (.loadError "object store corrupted"),
         { cache := [], loaderCalls := 2 }) :=
  getComponentStatusById_error_no_cache throwingCollab {} idA
    (.loadError "object store corrupted") rfl rfl

/-! ## Dependency indexer lemmas -/

theorem idxGet_setMetadata (idx : PackageNameIndex) (depId : String)
    (m : PackageNameIndexItemMetadata) (k : String) :
    idxGet (setMetadataToExistingIndexItem idx depId m) k =
      if k = depId then (idxGet idx k).map (fun item => { item with metadata := m })
      else idxGet idx k := by
  unfold idxGet setMetadataToExistingIndexItem
  induction idx with
  | nil => simp
  | cons p t ih =>
    simp only [List.map_cons, List.find?_cons]
    have hg1 : ((if p.1 == depId then (p.1, { p.2 with metadata := m }) else p) : String × PackageNameIndexItem).1 = p.1 := by
      split <;> rfl
    by_cases hpk : p.1 = k
    · have hcond : (p.1 == k) = true := by simp [hpk]
      rw [hg1, hcond]
      simp only [cond_true]
      by_cases hkd : k = depId
      · have : (p.1 == depId) = true := by simp [hpk, hkd]
        rw [this]
        simp [hkd]
      · have : (p.1 == depId) = false := by
          simp only [beq_eq_false_iff_ne, ne_eq]
          rw [hpk]
          exact hkd
        rw [this]
        simp [hkd]
    · have hcond : (p.1 == k) = false := by simp [hpk]
      rw [hg1, hcond]
      simp only [cond_false]
      exact ih

theorem idxGet_foldl_setMetadata (L : List WorkspacePolicyEntry) (idx : PackageNameIndex)
    (k : String) :
    idxGet (L.foldl (fun i e => setMetadataToExistingIndexItem i e.dependencyId (stampOf e)) idx) k
      = match (L.filter fun e => e.dependencyId == k).getLast? with
        | none => idxGet idx k
        | some e => (idxGet idx k).map fun item => { item with metadata := stampOf e } := by
  induction L generalizing idx with
  | nil => rfl
  | cons e0 t ih =>
    rw [List.foldl_cons, ih, List.filter_cons]
    by_cases he0 : e0.dependencyId = k
    · have hc : (e0.dependencyId == k) = true := by simp [he0]
      rw [hc]
      simp only [if_true]
      rcases hlast : (t.filter fun e => e.dependencyId == k).getLast? with - | elast
      · rw [List.getLast?_cons, hlast]
        simp only [Option.getD_none]
        rw [idxGet_setMetadata, if_pos he0.symm]
      · rw [List.getLast?_cons, hlast]
        simp only [Option.getD_some]
        rw [idxGet_setMetadata, if_pos he0.symm, Option.map_map]
        rfl
    · have hc : (e0.dependencyId == k) = false := by simp [he0]
      rw [hc]
      simp only [Bool.false_eq_true, if_false]
      rw [idxGet_setMetadata, if_neg (fun hkd => he0 hkd.symm)]

theorem idxGet_addPreservedFromRoot (idx : PackageNameIndex)
    (rootPolicy : List WorkspacePolicyEntry) (k : String) :
    idxGet (addPreservedFromRoot idx rootPolicy) k
      = match ((rootPolicy.filter fun e => e.preserve == some true).filter
            fun e => e.dependencyId == k).getLast? with
        | none => idxGet idx k
        | some e => (idxGet idx k).map fun item => { item with metadata := stampOf e } := by
  unfold addPreservedFromRoot
  exact idxGet_foldl_setMetadata _ idx k

theorem find?_key_map (l : List (String × PackageNameIndexItem))
    (g : String × PackageNameIndexItem → String × PackageNameIndexItem)
    (hg : ∀ p, (g p).1 = p.1) (k : String) :
    (l.map g).find? (fun p => p.1 == k) = (l.find? fun p => p.1 == k).map g := by
  induction l with
  | nil => rfl
  | cons p t ih =>
    rw [List.map_cons, List.find?_cons, List.find?_cons, hg p]
    cases hc : (p.1 == k)
    · simp only [cond_false]
      exact ih
    · simp only [cond_true, Option.map_some']

theorem idxGet_addComponentDep_isSome (idx : PackageNameIndex) (origin : String)
    (lt : Option DependencyLifecycleType) (range depId k : String) :
    (idxGet (addComponentDepToDepIdIndex idx origin lt range depId) k).isSome
      = ((idxGet idx k).isSome || depId == k) := by
  unfold addComponentDepToDepIdIndex
  by_cases hd : (idxGet idx depId).isSome
  · rw [if_pos hd]
    have hmap : (idxGet (idx.map fun p =>
        if p.1 == depId then
          (p.1, { p.2 with componentItems := p.2.componentItems ++
            [{ origin := origin, range := range, lifecycleType := lt }] })
        else p) k).isSome = (idxGet idx k).isSome := by
      unfold idxGet
      rw [find?_key_map _ _ (fun p => by split <;> rfl) k]
      simp [Option.isSome_map']
    rw [hmap]
    by_cases hdk : depId = k
    · subst hdk
      rw [hd]
      simp
    · have : (depId == k) = false := by simp [hdk]
      rw [this, Bool.or_false]
  · rw [if_neg hd]
    unfold idxGet at hd ⊢
    rw [List.find?_append]
    cases hfind : idx.find? fun p => p.1 == k
    · simp only [Option.none_or]
      rw [List.find?_cons]
      by_cases hdk : depId = k
      · simp [hdk]
      · have : (depId == k) = false := by simp [hdk]
        rw [this]
        simp [hfind]
    · simp [hfind]

/-- Whether a component's restricted dependency buckets declare `name`. -/
def declaresInBuckets (deps : DepsObject) (hoistedDepFields : Option (List ManifestDepsKey))
    (name : String) : Bool :=
  (restrictDepsObject hoistedDepFields deps).any fun b => b.2.any fun p => p.1 == name

/-- Whether some component of the workspace map declares `name` in the buckets
the indexer processes. -/
def declaredBySomeComponent (componentDependenciesMap : List (String × DepsObject))
    (hoistedDepFields : Option (List ManifestDepsKey)) (name : String) : Bool :=
  componentDependenciesMap.any fun comp => declaresInBuckets comp.2 hoistedDepFields name

theorem idxGet_addBucket_isSome (idx : PackageNameIndex) (origin : String)
    (deps : List (String × String)) (key : ManifestDepsKey) (k : String) :
    (idxGet (addSpecificLifeCycleDepsToIndex idx origin deps key) k).isSome
      = ((idxGet idx k).isSome || deps.any fun p => p.1 == k) := by
  unfold addSpecificLifeCycleDepsToIndex
  induction deps generalizing idx with
  | nil => simp
  | cons p t ih =>
    rw [List.foldl_cons, ih, idxGet_addComponentDep_isSome, List.any_cons]
    rw [Bool.or_assoc]

theorem idxGet_foldBuckets_isSome (buckets : DepsObject) (idx : PackageNameIndex)
    (origin : String) (k : String) :
    (idxGet (buckets.foldl (fun idx2 bucket =>
        addSpecificLifeCycleDepsToIndex idx2 origin bucket.2 bucket.1) idx) k).isSome
      = ((idxGet idx k).isSome || buckets.any fun b => b.2.any fun p => p.1 == k) := by
  induction buckets generalizing idx with
  | nil => simp
  | cons b t ih =>
    rw [List.foldl_cons, ih, idxGet_addBucket_isSome, List.any_cons, Bool.or_assoc]

theorem idxGet_buildIndex_isSome (componentDependenciesMap : List (String × DepsObject))
    (hoistedDepFields : Option (List ManifestDepsKey)) (k : String) :
    (idxGet (buildIndexFromComponents componentDependenciesMap hoistedDepFields) k).isSome
      = declaredBySomeComponent componentDependenciesMap hoistedDepFields k := by
  unfold buildIndexFromComponents declaredBySomeComponent
  have : ∀ (l : List (String × DepsObject)) (idx : PackageNameIndex),
      (idxGet (l.foldl (fun idx comp => (restrictDepsObject hoistedDepFields comp.2).foldl
          (fun idx2 bucket => addSpecificLifeCycleDepsToIndex idx2 comp.1 bucket.2 bucket.1) idx)
        idx) k).isSome
      = ((idxGet idx k).isSome || l.any fun comp => declaresInBuckets comp.2 hoistedDepFields k) := by
    intro l
    induction l with
    | nil => simp
    | cons comp t ih =>
      intro idx
      rw [List.foldl_cons, ih, idxGet_foldBuckets_isSome, List.any_cons, Bool.or_assoc]
      rfl
  rw [this componentDependenciesMap []]
  rfl

/-- C3: in the produced index, an entry for a name exists iff some component's
processed dependency buckets declare that name — `addPreservedFromRoot` never
creates entries, so a preserve-only policy entry for an undeclared name yields
no entry — and when the name is declared, the (last) preserve policy entry for
it stamps `metadata.preservedVersion` / `metadata.preservedLifecycleType` onto
the existing entry. -/
theorem indexByDepId_preserve_annotates_only_existing (rootPolicy : List WorkspacePolicyEntry)
    (cmap : List (String × DepsObject)) (hoisted : Option (List ManifestDepsKey))
    (name : String) :
    ((idxGet (indexByDepId rootPolicy cmap hoisted) name).isSome
        = declaredBySomeComponent cmap hoisted name) ∧
    (declaredBySomeComponent cmap hoisted name = false →
      idxGet (indexByDepId rootPolicy cmap hoisted) name = none) ∧
    (∀ e, ((rootPolicy.filter fun x => x.preserve == some true).filter
          fun x => x.dependencyId == name).getLast? = some e →
      ∀ item, idxGet (buildIndexFromComponents cmap hoisted) name = some item →
        idxGet (indexByDepId rootPolicy cmap hoisted) name
          = some { item with metadata := stampOf e }) := by
  have hchar := idxGet_addPreservedFromRoot (buildIndexFromComponents cmap hoisted)
    rootPolicy name
  have hpre := idxGet_buildIndex_isSome cmap hoisted name
  have hsome : (idxGet (indexByDepId rootPolicy cmap hoisted) name).isSome
      = declaredBySomeComponent cmap hoisted name := by
    unfold indexByDepId
    rw [hchar]
    rcases hlast : ((rootPolicy.filter fun e => e.preserve == some true).filter
        fun e => e.dependencyId == name).getLast? with - | e
    · rw [hlast]
      exact hpre
    · rw [hlast, Option.isSome_map']
      exact hpre
  refine ⟨hsome, ?_, ?_⟩
  · intro hnone
    rw [hnone] at hsome
    exact Option.not_isSome_iff_eq_none.mp (by rw [hsome]; exact Bool.false_ne_true)
  · intro e hlast item hitem
    unfold indexByDepId
    rw [hchar, hlast, hitem]
    rfl

/-- The spec's worked example: one component `comp-x` declaring a runtime
dependency `left-pad@^1.0.0`. -/
def leftPadDepsMap : List (String × DepsObject) :=
  [("comp-x", [(ManifestDepsKey.dependencies, [("left-pad", "^1.0.0")])])]

/-- The spec's worked example policy entry: preserve `left-pad` at `1.3.0`,
runtime lifecycle. -/
def leftPadEntry : WorkspacePolicyEntry :=
  { dependencyId := "left-pad", version := "1.3.0", preserve := some true,
    lifecycleType := .runtime }

/-- The spec's worked example policy. -/
def leftPadPolicy : List WorkspacePolicyEntry := [leftPadEntry]

/-- The index entry the worked example builds before policy application. -/
def leftPadItem : PackageNameIndexItem :=
  { metadata := {},
    componentItems := [{ range := "^1.0.0", origin := "comp-x",
                         lifecycleType := some .runtime }] }

/-- C3 witness: the theorem applied to the worked example — the `left-pad`
entry keeps the single declared component item and gains the preserved
metadata, while with no declaring component the same policy yields no entry. -/
theorem indexByDepId_preserve_witness :
    idxGet (indexByDepId leftPadPolicy leftPadDepsMap none) "left-pad"
      = some { leftPadItem with metadata := stampOf leftPadEntry } ∧
    idxGet (indexByDepId leftPadPolicy [] none) "left-pad" = none := by
  constructor
  · exact (indexByDepId_preserve_annotates_only_existing leftPadPolicy leftPadDepsMap
      none "left-pad").2.2 leftPadEntry (by decide) leftPadItem (by decide)
  · exact (indexByDepId_preserve_annotates_only_existing leftPadPolicy [] none
      "left-pad").2.1 (by decide)

/-! ## Removal engine lemmas -/

/-- The status loader reports `z` as modified (truthy `modified` facet). -/
def statusModifiedOk (c : RemoveCollab) (z : BitId) : Prop :=
  ∃ s, c.getComponentStatusById z = .ok s ∧ truthy s.modified = true

/-- The status computation for `z` does not abort the partition: it either
succeeds or throws an error classified invalid. -/
def statusSurvives (c : RemoveCollab) (z : BitId) : Prop :=
  match c.getComponentStatusById z with
  | .ok _ => True
  | .error e => e.invalidByErrorType = true

theorem partition_acc_sub (c : RemoveCollab) (l : List BitId) :
    ∀ ma na m nm, partitionByModified c l ma na = .ok (m, nm) →
      (∀ x ∈ ma, x ∈ m) ∧ (∀ x ∈ na, x ∈ nm) := by
  induction l with
  | nil =>
    intro ma na m nm h
    unfold partitionByModified at h
    cases h
    exact ⟨fun x hx => hx, fun x hx => hx⟩
  | cons hd t ih =>
    intro ma na m nm h
    unfold partitionByModified at h
    split at h
    · split at h
      · obtain ⟨h1, h2⟩ := ih _ _ _ _ h
        exact ⟨fun x hx => h1 x (List.mem_append_left _ hx), h2⟩
      · obtain ⟨h1, h2⟩ := ih _ _ _ _ h
        exact ⟨h1, fun x hx => h2 x (List.mem_append_left _ hx)⟩
    · split at h
      · obtain ⟨h1, h2⟩ := ih _ _ _ _ h
        exact ⟨h1, fun x hx => h2 x (List.mem_append_left _ hx)⟩
      · cases h

theorem partition_mem_m_of_modified (c : RemoveCollab) (l : List BitId) :
    ∀ ma na m nm, partitionByModified c l ma na = .ok (m, nm) →
      ∀ z ∈ l, ∀ s, c.getComponentStatusById z = .ok s → truthy s.modified = true → z ∈ m := by
  induction l with
  | nil =>
    intro ma na m nm h z hz
    cases hz
  | cons hd t ih =>
    intro ma na m nm h z hz s hs hmod
    rw [List.mem_cons] at hz
    unfold partitionByModified at h
    rcases hz with rfl | hz2
    · rw [hs] at h
      dsimp only at h
      rw [hmod] at h
      simp only [if_true] at h
      exact (partition_acc_sub c t _ _ m nm h).1 z
        (List.mem_append_right _ (List.mem_singleton_self z))
    · split at h
      · split at h
        · exact ih _ _ _ _ h z hz2 s hs hmod
        · exact ih _ _ _ _ h z hz2 s hs hmod
      · split at h
        · exact ih _ _ _ _ h z hz2 s hs hmod
        · cases h

theorem partition_mem_nm_of_invalid (c : RemoveCollab) (l : List BitId) :
    ∀ ma na m nm, partitionByModified c l ma na = .ok (m, nm) →
      ∀ z ∈ l, ∀ e, c.getComponentStatusById z = .error e → e.invalidByErrorType = true →
        z ∈ nm := by
  induction l with
  | nil =>
    intro ma na m nm h z hz
    cases hz
  | cons hd t ih =>
    intro ma na m nm h z hz e he hinv
    rw [List.mem_cons] at hz
    unfold partitionByModified at h
    rcases hz with rfl | hz2
    · rw [he] at h
      dsimp only at h
      rw [hinv] at h
      simp only [if_true] at h
      exact (partition_acc_sub c t _ _ m nm h).2 z
        (List.mem_append_right _ (List.mem_singleton_self z))
    · split at h
      · split at h
        · exact ih _ _ _ _ h z hz2 e he hinv
        · exact ih _ _ _ _ h z hz2 e he hinv
      · split at h
        · exact ih _ _ _ _ h z hz2 e he hinv
        · cases h

theorem partition_mem_nm_source (c : RemoveCollab) (l : List BitId) :
    ∀ ma na m nm, partitionByModified c l ma na = .ok (m, nm) →
      ∀ z ∈ nm, z ∈ na ∨ ¬ statusModifiedOk c z := by
  induction l with
  | nil =>
    intro ma na m nm h z hz
    unfold partitionByModified at h
    cases h
    exact Or.inl hz
  | cons hd t ih =>
    intro ma na m nm h z hz
    unfold partitionByModified at h
    split at h
    next s2 hs2 =>
      split at h
      · exact ih _ _ _ _ h z hz
      next hnotmod =>
        rcases ih _ _ _ _ h z hz with hmem | hnm
        · rw [List.mem_append] at hmem
          rcases hmem with hna | hone
          · exact Or.inl hna
          · rw [List.mem_singleton] at hone
            subst hone
            refine Or.inr fun hmod => ?_
            obtain ⟨s3, hs3, hmod3⟩ := hmod
            rw [hs2] at hs3
            cases hs3
            exact hnotmod hmod3
        · exact Or.inr hnm
    next e2 he2 =>
      split at h
      · rcases ih _ _ _ _ h z hz with hmem | hnm
        · rw [List.mem_append] at hmem
          rcases hmem with hna | hone
          · exact Or.inl hna
          · rw [List.mem_singleton] at hone
            subst hone
            refine Or.inr fun hmod => ?_
            obtain ⟨s3, hs3, -⟩ := hmod
            rw [he2] at hs3
            cases hs3
        · exact Or.inr hnm
      · cases h

theorem partition_mem_m_source (c : RemoveCollab) (l : List BitId) :
    ∀ ma na m nm, partitionByModified c l ma na = .ok (m, nm) →
      ∀ z ∈ m, z ∈ ma ∨ statusModifiedOk c z := by
  induction l with
  | nil =>
    intro ma na m nm h z hz
    unfold partitionByModified at h
    cases h
    exact Or.inl hz
  | cons hd t ih =>
    intro ma na m nm h z hz
    unfold partitionByModified at h
    split at h
    next s2 hs2 =>
      split at h
      next hmod =>
        rcases ih _ _ _ _ h z hz with hmem | hm
        · rw [List.mem_append] at hmem
          rcases hmem with hma | hone
          · exact Or.inl hma
          · rw [List.mem_singleton] at hone
            subst hone
            exact Or.inr ⟨s2, hs2, hmod⟩
        · exact Or.inr hm
      · exact ih _ _ _ _ h z hz
    next e2 he2 =>
      split at h
      · exact ih _ _ _ _ h z hz
      · cases h

theorem partition_ok_of_survives (c : RemoveCollab) (l : List BitId)
    (hall : ∀ z ∈ l, statusSurvives c z) :
    ∀ ma na, ∃ p, partitionByModified c l ma na = .ok p := by
  induction l with
  | nil =>
    intro ma na
    exact ⟨(ma, na), rfl⟩
  | cons hd t ih =>
    intro ma na
    have hhd := hall hd (List.mem_cons_self hd t)
    have hall2 : ∀ z ∈ t, statusSurvives c z := fun z hz => hall z (List.mem_cons_of_mem hd hz)
    unfold partitionByModified
    unfold statusSurvives at hhd
    rcases hs : c.getComponentStatusById hd with e | s <;> rw [hs] at hhd
    · dsimp only
      rw [if_pos hhd]
      exact ih hall2 ma (na ++ [hd])
    · dsimp only
      by_cases hmod : truthy s.modified = true
      · rw [if_pos hmod]
        exact ih hall2 (ma ++ [hd]) na
      · rw [if_neg hmod]
        exact ih hall2 ma (na ++ [hd])

theorem partition_error_of_bad (c : RemoveCollab) (l : List BitId) (z : BitId)
    (e : ComponentError) (he : c.getComponentStatusById z = .error e)
    (hbad : e.invalidByErrorType = false) :
    z ∈ l → ∀ ma na, ∃ e2, partitionByModified c l ma na = .error e2 := by
  induction l with
  | nil => intro hz; cases hz
  | cons hd t ih =>
    intro hz ma na
    rw [List.mem_cons] at hz
    unfold partitionByModified
    rcases hs : c.getComponentStatusById hd with e2 | s2
    · dsimp only
      by_cases hinv : e2.invalidByErrorType = true
      · rw [if_pos hinv]
        rcases hz with rfl | hz2
        · rw [hs] at he
          cases he
          rw [hbad] at hinv
          cases hinv
        · exact ih hz2 ma (na ++ [hd])
      · rw [if_neg hinv]
        exact ⟨e2, rfl⟩
    · dsimp only
      have hz2 : z ∈ t := by
        rcases hz with rfl | hz2
        · rw [hs] at he
          cases he
        · exact hz2
      by_cases hmod : truthy s2.modified = true
      · rw [if_pos hmod]
        exact ih hz2 (ma ++ [hd]) na
      · rw [if_neg hmod]
        exact ih hz2 ma (na ++ [hd])

theorem mem_uniqFromArray (x : BitId) (l : List BitId) :
    x ∈ BitIds.uniqFromArray l ↔ x ∈ l := by
  have hfold : ∀ (l acc : List BitId),
      x ∈ l.foldl (fun acc id => if id ∈ acc then acc else acc ++ [id]) acc ↔
        x ∈ acc ∨ x ∈ l := by
    intro l
    induction l with
    | nil => intro acc; simp
    | cons hd t ih =>
      intro acc
      rw [List.foldl_cons]
      by_cases hmem : hd ∈ acc
      · rw [if_pos hmem, ih, List.mem_cons]
        constructor
        · rintro (ha | ht)
          · exact Or.inl ha
          · exact Or.inr (Or.inr ht)
        · rintro (ha | rfl | ht)
          · exact Or.inl ha
          · exact Or.inl hmem
          · exact Or.inr ht
      · rw [if_neg hmem, ih, List.mem_append, List.mem_singleton, List.mem_cons]
        tauto
  rw [BitIds.uniqFromArray, hfold]
  simp

/-- The `RemovedLocalObjects` that `removeLocal` builds once the status
partition is known (the tail of the function after the `pMapSeries` loop). -/
def mkRemovedLocal (c : RemoveCollab) (bitIds : List BitId) (force : Bool)
    (parts : List BitId × List BitId) : RemovedLocalObjects :=
  let idsToRemove := if force then bitIds else parts.2
  let newComponents := c.listNewComponents
  let idsToRemoveFromScope := BitIds.fromArray
    (idsToRemove.filter fun id => !(BitIds.hasWithoutVersion newComponents id))
  let idsToCleanFromWorkspace := BitIds.fromArray
    (idsToRemove.filter fun id => BitIds.hasWithoutVersion newComponents id)
  let r := c.removeMany idsToRemoveFromScope force
  let idsToCleanFromWorkspace2 := idsToCleanFromWorkspace ++ r.removedComponentIds
  { removedComponentIds :=
      BitIds.uniqFromArray (idsToCleanFromWorkspace2 ++ r.removedComponentIds),
    missingComponents := r.missingComponents,
    modifiedComponents := parts.1,
    dependentBits := r.dependentBits,
    removedFromLane := r.removedFromLane }

theorem removeLocal_eq (c : RemoveCollab) (bitIds : List BitId)
    (force track deleteFiles : Bool) (hne : bitIds.isEmpty = false) :
    removeLocal c bitIds force track deleteFiles =
      (if force then Except.ok (([], []) : List BitId × List BitId)
       else partitionByModified c bitIds [] []).map (mkRemovedLocal c bitIds force) := by
  unfold removeLocal
  rw [hne]
  cases force
  · simp only [Bool.false_eq_true, if_false]
    cases hp : partitionByModified c bitIds [] [] <;> rfl
  · rfl

/-- C2: in a local removal with `force=false`, an input identity whose status
is modified lands in `modifiedComponents` (the result's `modifiedSkipped`) and
not in the removed ids; with `force=true` it lands in the removed ids
regardless of its status. The scope collaborator is assumed to remove exactly
what it is asked to (`removeMany` returns a permutation-free echo of its
candidates). -/
theorem removeLocal_modified_partition (c : RemoveCollab) (ids : List BitId) (Z : BitId)
    (track deleteFiles : Bool)
    (hsub : ∀ l f, ∀ x ∈ (c.removeMany l f).removedComponentIds, x ∈ l)
    (hcomp : ∀ l f, ∀ x ∈ l, x ∈ (c.removeMany l f).removedComponentIds)
    (hZ : Z ∈ ids) :
    (∀ s, c.getComponentStatusById Z = .ok s → truthy s.modified = true →
      ∀ res, removeLocal c ids false track deleteFiles = .ok res →
        Z ∈ res.modifiedComponents ∧ Z ∉ res.removedComponentIds) ∧
    (∀ res, removeLocal c ids true track deleteFiles = .ok res →
      Z ∈ res.removedComponentIds) := by
  have hne : ids.isEmpty = false := by
    cases ids
    · cases hZ
    · rfl
  constructor
  · intro s hs hmod res hres
    rw [removeLocal_eq c ids false track deleteFiles hne] at hres
    simp only [Bool.false_eq_true, if_false] at hres
    cases hp : partitionByModified c ids [] [] <;> rw [hp] at hres
    · cases hres
    next p =>
      obtain ⟨m, nm⟩ := p
      have hres2 : mkRemovedLocal c ids false (m, nm) = res := Except.ok.inj hres
      subst hres2
      constructor
      · exact partition_mem_m_of_modified c ids [] [] m nm hp Z hZ s hs hmod
      · intro hmem
        unfold mkRemovedLocal at hmem
        dsimp only at hmem
        rw [mem_uniqFromArray, List.mem_append, List.mem_append] at hmem
        have hZnm : Z ∈ nm := by
          rcases hmem with (hclean | hrem) | hrem
          · exact (List.mem_filter.mp hclean).1
          · exact (List.mem_filter.mp (hsub _ _ Z hrem)).1
          · exact (List.mem_filter.mp (hsub _ _ Z hrem)).1
        rcases partition_mem_nm_source c ids [] [] m nm hp Z hZnm with hnil | hnotmod
        · cases hnil
        · exact hnotmod ⟨s, hs, hmod⟩
  · intro res hres
    rw [removeLocal_eq c ids true track deleteFiles hne] at hres
    simp only [if_true, Except.map] at hres
    have hres2 : mkRemovedLocal c ids true ([], []) = res := Except.ok.inj hres
    subst hres2
    unfold mkRemovedLocal
    dsimp only
    rw [mem_uniqFromArray, List.mem_append, List.mem_append]
    by_cases hw : BitIds.hasWithoutVersion c.listNewComponents Z = true
    · exact Or.inl (Or.inl (List.mem_filter.mpr ⟨hZ, hw⟩))
    · refine Or.inr (hcomp _ _ Z (List.mem_filter.mpr ⟨hZ, ?_⟩))
      rw [Bool.not_eq_true] at hw
      rw [hw]
      rfl

/-- Removal collaborator stub: `comp-a` reports modified, everything else
non-modified; `removeMany` removes exactly what it is asked. -/
def removalCollabStub : RemoveCollab :=
  { getComponentStatusById := fun id =>
      if id.name == "comp-a" then .ok { modified := some true }
      else .ok { modified := some false }
    listNewComponents := []
    removeMany := fun l _ =>
      { removedComponentIds := l, missingComponents := [], dependentBits := [],
        removedFromLane := [] }
    removeRemote := fun _ _ => [] }

/-- The `force=false` local-removal result on `[idA, idB]` with `idA` modified. -/
def removalForceFalseResult : RemovedLocalObjects :=
  { removedComponentIds := [idB], missingComponents := [], modifiedComponents := [idA],
    dependentBits := [], removedFromLane := [] }

/-- The `force=true` local-removal result on the same input. -/
def removalForceTrueResult : RemovedLocalObjects :=
  { removedComponentIds := [idA, idB], missingComponents := [], modifiedComponents := [],
    dependentBits := [], removedFromLane := [] }

/-- C2 witness: the partition theorem applied to the concrete stub, where the
modified `idA` is skipped under `force=false` and removed under `force=true`. -/
theorem removeLocal_modified_partition_witness :
    (idA ∈ removalForceFalseResult.modifiedComponents ∧
      idA ∉ removalForceFalseResult.removedComponentIds) ∧
    idA ∈ removalForceTrueResult.removedComponentIds := by
  have h := removeLocal_modified_partition removalCollabStub [idA, idB] idA false false
    (fun l f x hx => hx) (fun l f x hx => hx) (List.mem_cons_self idA [idB])
  exact ⟨h.1 { modified := some true } rfl rfl removalForceFalseResult rfl,
    h.2 removalForceTrueResult rfl⟩

/-- C10: in a `force=false` local removal, an identity whose status computation
throws an error classified invalid (`Component.isComponentInvalidByErrorType`,
e.g. a missing main file) is treated as non-modified and stays a removal
candidate (provided the other statuses do not abort, and the scope collaborator
removes its candidates); any status error not so classified propagates and
aborts the whole call. -/
theorem removeLocal_invalid_status_tolerated (c : RemoveCollab) (ids : List BitId)
    (Z : BitId) (track deleteFiles : Bool) (e : ComponentError)
    (hcomp : ∀ l f, ∀ x ∈ l, x ∈ (c.removeMany l f).removedComponentIds)
    (hZ : Z ∈ ids) (herr : c.getComponentStatusById Z = .error e) :
    (e.invalidByErrorType = true → (∀ z ∈ ids, statusSurvives c z) →
      ∃ res, removeLocal c ids false track deleteFiles = .ok res ∧
        Z ∉ res.modifiedComponents ∧ Z ∈ res.removedComponentIds) ∧
    (e.invalidByErrorType = false →
      ∃ e2, removeLocal c ids false track deleteFiles = .error e2) := by
  have hne : ids.isEmpty = false := by
    cases ids
    · cases hZ
    · rfl
  constructor
  · intro hinv hall
    obtain ⟨⟨m, nm⟩, hp⟩ := partition_ok_of_survives c ids hall [] []
    refine ⟨mkRemovedLocal c ids false (m, nm), ?_, ?_, ?_⟩
    · rw [removeLocal_eq c ids false track deleteFiles hne]
      simp only [Bool.false_eq_true, if_false]
      rw [hp]
      rfl
    · intro hm
      rcases partition_mem_m_source c ids [] [] m nm hp Z hm with hnil | hmod
      · cases hnil
      · obtain ⟨s, hs, -⟩ := hmod
        rw [herr] at hs
        cases hs
    · have hZnm : Z ∈ nm := partition_mem_nm_of_invalid c ids [] [] m nm hp Z hZ e herr hinv
      unfold mkRemovedLocal
      dsimp only
      rw [mem_uniqFromArray, List.mem_append, List.mem_append]
      by_cases hw : BitIds.hasWithoutVersion c.listNewComponents Z = true
      · exact Or.inl (Or.inl (List.mem_filter.mpr ⟨hZnm, hw⟩))
      · refine Or.inr (hcomp _ _ Z (List.mem_filter.mpr ⟨hZnm, ?_⟩))
        rw [Bool.not_eq_true] at hw
        rw [hw]
        rfl
  · intro hbad
    obtain ⟨e2, hp⟩ := partition_error_of_bad c ids Z e herr hbad hZ [] []
    refine ⟨e2, ?_⟩
    rw [removeLocal_eq c ids false track deleteFiles hne]
    simp only [Bool.false_eq_true, if_false]
    rw [hp]
    rfl

/-- An always-invalid status error (e.g. missing main file). -/
def invalidErr : ComponentError := { invalidByErrorType := true, msg := "missing main file" }

/-- A status error outside the invalid classification. -/
def abortErr : ComponentError := { invalidByErrorType := false, msg := "unexpected failure" }

/-- Stub whose status computation always throws the invalid-classified error. -/
def invalidErrCollab : RemoveCollab :=
  { getComponentStatusById := fun _ => .error invalidErr
    listNewComponents := []
    removeMany := fun l _ =>
      { removedComponentIds := l, missingComponents := [], dependentBits := [],
        removedFromLane := [] }
    removeRemote := fun _ _ => [] }

/-- Stub whose status computation always throws a non-invalid error. -/
def abortErrCollab : RemoveCollab :=
  { getComponentStatusById := fun _ => .error abortErr
    listNewComponents := []
    removeMany := fun l _ =>
      { removedComponentIds := l, missingComponents := [], dependentBits := [],
        removedFromLane := [] }
    removeRemote := fun _ _ => [] }

/-- The local-removal result when `idA`'s status throws the invalid error. -/
def removalInvalidResult : RemovedLocalObjects :=
  { removedComponentIds := [idA], missingComponents := [], modifiedComponents := [],
    dependentBits := [], removedFromLane := [] }

/-- C10 witness: the tolerance theorem applied to the two concrete stubs. -/
theorem removeLocal_invalid_status_tolerated_witness :
    (idA ∉ removalInvalidResult.modifiedComponents ∧
      idA ∈ removalInvalidResult.removedComponentIds) ∧
    removeLocal abortErrCollab [idA] false false false = .error abortErr := by
  have h1 := (removeLocal_invalid_status_tolerated invalidErrCollab [idA] idA false false
    invalidErr (fun l f x hx => hx) (List.mem_singleton_self idA) rfl).1 rfl
    (fun z hz => by
      show statusSurvives invalidErrCollab z
      exact rfl)
  obtain ⟨res, hres, hnm, hmem⟩ := h1
  have hres0 : mkRemovedLocal invalidErrCollab [idA] false ([], [idA]) = res := by
    have : removeLocal invalidErrCollab [idA] false false false
        = .ok (mkRemovedLocal invalidErrCollab [idA] false ([], [idA])) := rfl
    exact Except.ok.inj (this.symm.trans hres)
  have hresEq : res = removalInvalidResult := by
    rw [← hres0]
    rfl
  subst hresEq
  refine ⟨⟨hnm, hmem⟩, ?_⟩
  obtain ⟨e2, he2⟩ := (removeLocal_invalid_status_tolerated abortErrCollab [idA] idA false
    false abortErr (fun l f x hx => hx) (List.mem_singleton_self idA) rfl).2 rfl
  have he3 : e2 = abortErr := by
    have hcompute : removeLocal abortErrCollab [idA] false false false = .error abortErr := rfl
    rw [hcompute] at he2
    exact (Except.error.inj he2).symm
  exact he3 ▸ he2

/-- An unscoped (purely local) identity. -/
def idLocal : BitId := { scope := none, name := "comp-local", version := none }

/-- The result of the local path for the unscoped id under `remote=false`. -/
def unscopedLocalRemovalResult : RemoveComponentsResult :=
  { localResult :=
      { removedComponentIds := [idLocal.changeVersion latestBitVersion],
        missingComponents := [], modifiedComponents := [], dependentBits := [],
        removedFromLane := [] },
    remoteResult := [] }

/-- C6 counterexample: with `remote=false` and an input id that lacks a scope,
`removeComponents` is NOT rejected — the unscoped id flows through the local
path and the call succeeds. The rejection only guards the `remote=true` path. -/
theorem removeComponents_unscoped_local_not_rejected :
    removeComponents removalCollabStub [idLocal] false false false false
      = .ok unscopedLocalRemovalResult := rfl

/-- C6 amended: when `remote=true` and some input identity lacks a scope, the
call is rejected with the `GeneralError` ("unable to remove the remote
components ... they don't contain a scope-name"); with `remote=false` unscoped
ids proceed through local removal. -/
theorem removeComponents_remote_unscoped_rejected (c : RemoveCollab) (ids : List BitId)
    (force track deleteFiles : Bool) (id0 : BitId) (hid : id0 ∈ ids)
    (hsc : id0.scope = none) :
    ∃ msg, removeComponents c ids force true track deleteFiles
      = .error (.generalError msg) := by
  have hmem : id0.changeVersion latestBitVersion
      ∈ BitIds.fromArray (ids.map fun id => id.changeVersion latestBitVersion) :=
    List.mem_map_of_mem _ hid
  have hloc : (id0.changeVersion latestBitVersion).isLocal = true := by
    simp [BitId.isLocal, BitId.changeVersion, hsc]
  have hfilter : id0.changeVersion latestBitVersion
      ∈ (BitIds.fromArray (ids.map fun id => id.changeVersion latestBitVersion)).filter
          fun id => id.isLocal :=
    List.mem_filter.mpr ⟨hmem, hloc⟩
  have hempty : (((BitIds.fromArray (ids.map fun id => id.changeVersion latestBitVersion)).partition
      fun id => id.isLocal).1).isEmpty = false := by
    rw [List.partition_eq_filter_filter]
    dsimp only
    rcases hf : (BitIds.fromArray (ids.map fun id => id.changeVersion latestBitVersion)).filter
        (fun id => id.isLocal) with - | ⟨hd, tl⟩
    · rw [hf] at hfilter
      cases hfilter
    · rw [hf]
      rfl
  refine ⟨"unable to remove the remote components: "
      ++ String.intercalate "," ((((BitIds.fromArray
        (ids.map fun id => id.changeVersion latestBitVersion)).partition
          fun id => id.isLocal).1).map BitId.toStringId)
      ++ " as they don't contain a scope-name", ?_⟩
  unfold removeComponents
  dsimp only
  rw [hempty]
  rfl

/-- C6 amended witness: the rejection theorem applied to the concrete unscoped
id under `remote=true`, with the fully evaluated error message. -/
theorem removeComponents_remote_unscoped_rejected_witness :
    removeComponents removalCollabStub [idLocal] false true false false
      = .error (.generalError ("unable to remove the remote components: "
          ++ "comp-local@latest" ++ " as they don't contain a scope-name")) := by
  obtain ⟨msg, hmsg⟩ := removeComponents_remote_unscoped_rejected removalCollabStub [idLocal]
    false false false idLocal (List.mem_singleton_self idLocal) rfl
  have hmsg2 : msg = "unable to remove the remote components: "
      ++ "comp-local@latest" ++ " as they don't contain a scope-name" := by
    have hcompute : removeComponents removalCollabStub [idLocal] false true false false
        = .error (.generalError ("unable to remove the remote components: "
            ++ "comp-local@latest" ++ " as they don't contain a scope-name")) := by
      rfl
    rw [hcompute] at hmsg
    injection hmsg with h1
    injection h1 with h2
    exact h2.symm
  rw [← hmsg2]
  exact hmsg
